import Mathlib

/-!
Verification development for the image-orchestration core of the stereoscope
repository (pkg/image/image.go): the per-layer squash pass, the squashed-tree
accessor, link-resolution option plumbing, the metadata tag override, and the
content-distribution pipeline (IterateContent), embedded as executable Lean
definitions with the external collaborators (the filetree union engine, the
file catalog and the tar iterator) either abstracted as parameters or modelled
from the specification where their sources are not part of this repository.
-/

set_option linter.unusedVariables false

namespace Stereoscope

/-- A parsed image tag. The parser (name.NewTag of an external library) is out
of scope, so WithTags is parameterized by the parsing function and a parsed tag
is modelled by its textual form. -/
abbrev Tag := String

/-- Modelled from the spec: a FileTree of the missing filetree package is a
mapping from normalized absolute path to file node. The orchestration code in
image.go treats trees opaquely, so a node is represented by its FileReference
id and a tree by its path-to-node association list. -/
abbrev FileTree := List (String × Nat)

/-- Modelled from the spec: filetree.NewFileTree returns an empty file tree
(the empty squash view of an image with zero layers). -/
def NewFileTree : FileTree := []

/-- Modelled from the spec: filetree.NewUnionFileTree holds the ordered stack
of trees pushed into the union squash engine. -/
structure UnionFileTree where
  trees : List FileTree
deriving Repr

/-- Modelled from the spec: an empty union tree. -/
def NewUnionFileTree : UnionFileTree := ⟨[]⟩

/-- Modelled from the spec: PushTree appends one tree to the ordered stack. -/
def UnionFileTree.PushTree (u : UnionFileTree) (t : FileTree) : UnionFileTree :=
  ⟨u.trees ++ [t]⟩

/-- Modelled from the spec: the union squash engine of the missing filetree
package, abstracted as a function applied to the pushed trees in stack order
(bottom first); it may fail, as unionTree.Squash() does in the source. -/
def UnionFileTree.Squash (u : UnionFileTree)
    (engine : List FileTree → Except String FileTree) : Except String FileTree :=
  engine u.trees

/-- Select image attributes; only the field examined by the claims (Tags) is
modelled. Tags distinguishes the nil slice (none) from a populated slice. -/
structure Metadata where
  Tags : Option (List Tag)
deriving Repr

/-- Modelled from the spec: the layer metadata of the missing layer.go; only
the content digest, which image.go uses as the catalog key, is modelled. -/
structure LayerMetadata where
  Digest : String
deriving Repr

/-- One live tar archive entry header as seen during the distribution pass. -/
structure TarEntry where
  Name : String
deriving DecidableEq, Repr

/-- Modelled from the spec: a FileCatalog entry of the missing file_catalog.go,
keyed by FileReference (a Nat id here); TarHeaderName is the archive-entry name
recorded at parse time. -/
structure FileCatalogEntry where
  File : Nat
  TarHeaderName : String
deriving DecidableEq, Repr

/-- Modelled from the spec: the FileCatalog of the missing file_catalog.go.
entries indexes catalog entries by layer digest and archive position; cache
holds the references whose content has already been persisted (the
lazily-populated content cache slots). -/
structure FileCatalog where
  entries : List (String × List FileCatalogEntry)
  cache : List Nat
deriving Repr

/-- Modelled from the spec: a Layer of the missing layer.go pairs its metadata
with its own FileTree, its cumulative SquashedTree, and its archive accessor
l.content(), modelled by the list of tar entries it yields (or the error the
accessor returns). -/
structure Layer where
  Metadata : LayerMetadata
  Tree : FileTree
  SquashedTree : FileTree
  content : Except String (List TarEntry)

/-- A content observer: IsInterestedIn is its filter over file references. Its
ObserveContent consumption loop is external behavior and is not modelled; the
pipeline's sends to it are recorded as trace events instead. -/
structure Observer where
  IsInterestedIn : Nat → Bool

/-- A file reference as used by the link-resolution entry points: an id plus
the canonical real path. -/
structure FileRef where
  id : Nat
  RealPath : String
deriving DecidableEq, Repr

/-- Modelled from the spec: the link-resolution policies of the missing
filetree package; FollowBasenameLinks is the compatibility policy image.go
always prepends, and callers may add further policies (Other). -/
inductive LinkResolutionOption where
  | FollowBasenameLinks
  | Other (n : Nat)
deriving DecidableEq, Repr

/-- An image: select metadata, the rich layer objects in build order, and the
file catalog shared by all layers. -/
structure Image where
  Metadata : Metadata
  Layers : List Layer
  FileCatalog : FileCatalog

/-- Parses the tag list in order; mirrors the WithTags loop of image.go, which
breaks at the first failing tag and returns that parse error. -/
def withTagsLoop (NewTag : String → Except String Tag) :
    List String → Except String (List Tag)
  | [] => Except.ok []
  | t :: ts =>
    match NewTag t with
    | Except.error e => Except.error e
    | Except.ok tag =>
      match withTagsLoop NewTag ts with
      | Except.error e => Except.error e
      | Except.ok rest => Except.ok (tag :: rest)

/-- WithTags of image.go, parameterized by the external tag parser. The Go
code preallocates the tag slice, assigns parsed tags in order, and on the
first parse error sets Metadata.Tags to nil, breaks, and returns the error;
the observable result (final image state and returned error) is modelled. -/
def WithTags (NewTag : String → Except String Tag) (tags : List String)
    (image : Image) : Image × Option String :=
  match withTagsLoop NewTag tags with
  | Except.ok parsed =>
    ({ image with Metadata := { image.Metadata with Tags := some parsed } }, none)
  | Except.error e =>
    ({ image with Metadata := { image.Metadata with Tags := none } }, some e)

/-- The body of the squash loop of image.go from index 1 upward: it carries
lastSquashTree, pushes it and the current layer's own tree into a fresh union
tree, squashes, stores the result on the layer and passes it on. The progress
counter is external fire-and-forget plumbing and is not modelled. -/
def Image.squashLoop (engine : List FileTree → Except String FileTree) :
    FileTree → Nat → List Layer → Except String (List Layer)
  | _, _, [] => Except.ok []
  | lastSquashTree, idx, layer :: ls =>
    let unionTree := (NewUnionFileTree.PushTree lastSquashTree).PushTree layer.Tree
    match unionTree.Squash engine with
    | Except.error e =>
      Except.error ("failed to squash tree " ++ toString idx ++ ": " ++ e)
    | Except.ok squashedTree =>
      match Image.squashLoop engine squashedTree (idx + 1) ls with
      | Except.error e => Except.error e
      | Except.ok rest => Except.ok ({ layer with SquashedTree := squashedTree } :: rest)

/-- Image.squash of image.go: layer 0's squashed tree is its own tree; every
later layer's squashed tree is the union of the previous cumulative squash and
that layer's own tree, in increasing index order. Returns the layer list with
the SquashedTree fields populated. -/
def Image.squash (engine : List FileTree → Except String FileTree)
    (layers : List Layer) : Except String (List Layer) :=
  match layers with
  | [] => Except.ok []
  | layer :: ls =>
    match Image.squashLoop engine layer.Tree 1 ls with
    | Except.error e => Except.error e
    | Except.ok rest => Except.ok ({ layer with SquashedTree := layer.Tree } :: rest)

/-- Image.SquashedTree of image.go: the top layer's squashed tree, or a fresh
empty tree when the image has zero layers. -/
def Image.SquashedTree (i : Image) : FileTree :=
  if h : i.Layers.length = 0 then NewFileTree
  else (i.Layers.get ⟨i.Layers.length - 1, by omega⟩).SquashedTree

/-- Go slice indexing with an int index: some element when the index is in
bounds, none for the out-of-bounds panic. -/
def goIndex {α : Type} (xs : List α) (i : Int) : Option α :=
  if h : 0 ≤ i ∧ i.toNat < xs.length then some (xs.get ⟨i.toNat, h.2⟩) else none

/-- Image.ResolveLinkByLayerSquash of image.go, parameterized by the external
filetree File lookup (whose result type is opaque here): it prepends
FollowBasenameLinks to the caller's options and resolves against the squashed
tree of the layer at the given index; none models the index-out-of-bounds
panic. -/
def Image.ResolveLinkByLayerSquash {β : Type} (i : Image)
    (File : FileTree → String → List LinkResolutionOption → β)
    (ref : FileRef) (layer : Int) (options : List LinkResolutionOption) : Option β :=
  let allOptions := LinkResolutionOption.FollowBasenameLinks :: options
  (goIndex i.Layers layer).map (fun l => File l.SquashedTree ref.RealPath allOptions)

/-- Image.ResolveLinkByImageSquash of image.go: as ResolveLinkByLayerSquash but
against the squashed tree of the layer at index len(Layers)-1, with no guard
for an empty layer list. -/
def Image.ResolveLinkByImageSquash {β : Type} (i : Image)
    (File : FileTree → String → List LinkResolutionOption → β)
    (ref : FileRef) (options : List LinkResolutionOption) : Option β :=
  let allOptions := LinkResolutionOption.FollowBasenameLinks :: options
  (goIndex i.Layers ((i.Layers.length : Int) - 1)).map
    (fun l => File l.SquashedTree ref.RealPath allOptions)

/-- One step in the trace of the content-distribution pipeline. openLayer marks
the l.content() call for a layer index; prepareCall marks one invocation of the
catalog's prepareContentReader at a (layer, entry) position for a reference;
rawRead marks the raw archive bytes for a reference actually being read (rather
than served from the content cache); send marks one synchronous delivery on the
channel of the observer at the given registration index; closeChan marks that
observer's channel being closed. -/
inductive Event where
  | openLayer (layerIdx : Nat)
  | prepareCall (layerIdx entryIdx ref : Nat)
  | rawRead (ref : Nat)
  | send (layerIdx entryIdx obsIdx ref : Nat)
  | closeChan (obsIdx : Nat)
deriving DecidableEq, Repr

/-- Modelled from the spec: FileCatalog.prepareContentReader reads the bytes
from the tar, or uses previously cached contents, potentially populating the
cache entry now; it returns the invocation trace and the updated cache. -/
def prepareContentReader (L E ref : Nat) (cache : List Nat) :
    List Event × List Nat :=
  if ref ∈ cache then
    ([Event.prepareCall L E ref], cache)
  else
    ([Event.prepareCall L E ref, Event.rawRead ref], ref :: cache)

/-- The observer loop of the tar visitor in Image.IterateContent: for each
observer in registration order (obsIdx counting from the given start), if it is
interested in the entry's file, prepare a content reader and push the content
to it on its channel. -/
def deliverToObservers (L E ref : Nat) :
    List Observer → List Nat → Nat → List Event × List Nat
  | [], cache, _ => ([], cache)
  | o :: os, cache, obsIdx =>
    if o.IsInterestedIn ref then
      let p := prepareContentReader L E ref cache
      let rest := deliverToObservers L E ref os p.2 (obsIdx + 1)
      (p.1 ++ Event.send L E obsIdx ref :: rest.1, rest.2)
    else
      deliverToObservers L E ref os cache (obsIdx + 1)

/-- Modelled from the spec: FileCatalog.getByLayerTarIndex, the archive-position
secondary index lookup of the missing file_catalog.go. -/
def FileCatalog.getByLayerTarIndex (cat : FileCatalog) (digest : String)
    (index : Nat) : Except String FileCatalogEntry :=
  match cat.entries.lookup digest with
  | none => Except.error ("no entries for layer " ++ digest)
  | some es =>
    match es.get? index with
    | none => Except.error ("no entry at tar index " ++ toString index)
    | some e => Except.ok e

/-- The tar visitor literal of Image.IterateContent: look the live entry up in
the catalog by archive position, fail when the lookup fails or when the
recorded archive-entry name disagrees with the live tar header name, and
otherwise deliver the entry's content to every interested observer. -/
def tarVisitor (cat : FileCatalog) (digest : String) (observers : List Observer)
    (L : Nat) (cache : List Nat) (index : Nat) (header : TarEntry) :
    List Event × List Nat × Option String :=
  match cat.getByLayerTarIndex digest index with
  | Except.error e =>
    ([], cache, some ("unexpected error while visiting tar path=" ++ header.Name
      ++ " : " ++ e))
  | Except.ok entry =>
    if entry.TarHeaderName ≠ header.Name then
      ([], cache, some ("mismatched tar header names : " ++ header.Name
        ++ " != " ++ entry.TarHeaderName))
    else
      let d := deliverToObservers L index entry.File observers cache 0
      (d.1, d.2, none)

/-- Modelled from the spec: file.TarIterator of the missing tar utilities
visits the archive entries in order, passing each entry's position and header
to the visitor and stopping at the first visitor error; inlined here with the
tar visitor of Image.IterateContent. -/
def visitEntries (cat : FileCatalog) (digest : String) (observers : List Observer)
    (L : Nat) : List Nat → Nat → List TarEntry → List Event × List Nat × Option String
  | cache, _, [] => ([], cache, none)
  | cache, index, header :: rest =>
    match tarVisitor cat digest observers L cache index header with
    | (evs, cache2, some m) => (evs, cache2, some m)
    | (evs, cache2, none) =>
      let r := visitEntries cat digest observers L cache2 (index + 1) rest
      (evs ++ r.1, r.2)

/-- The layer loop of Image.IterateContent: open each layer's (potentially
cached) tar in build order and run the tar visitor over its entries, stopping
at the first failure. -/
def visitLayers (cat : FileCatalog) (observers : List Observer) :
    List Nat → Nat → List Layer → List Event × List Nat × Option String
  | cache, _, [] => ([], cache, none)
  | cache, L, l :: ls =>
    match l.content with
    | Except.error e => ([Event.openLayer L], cache, some e)
    | Except.ok entries =>
      match visitEntries cat l.Metadata.Digest observers L cache 0 entries with
      | (evs, cache2, some m) => (Event.openLayer L :: evs, cache2, some m)
      | (evs, cache2, none) =>
        let r := visitLayers cat observers cache2 (L + 1) ls
        (Event.openLayer L :: (evs ++ r.1), r.2)

/-- Image.IterateContent of image.go: fail when no observers are given;
otherwise start one channel per observer, stream every layer's archive once
through the tar visitor, and close every observer channel on return (the
deferred close runs on success and on error alike). The returned trace records
the pipeline's actions in the order they happen; each send blocks the pipeline
until it is accepted, so trace order is delivery order. -/
def Image.IterateContent (i : Image) (observers : List Observer) :
    List Event × Except String Unit :=
  if observers.length = 0 then
    ([], Except.error "no content observers provided")
  else
    let r := visitLayers i.FileCatalog observers i.FileCatalog.cache 0 i.Layers
    (r.1 ++ (List.range observers.length).map Event.closeChan,
     match r.2.2 with
     | some m => Except.error m
     | none => Except.ok ())

/-- Counts the prepareContentReader invocations for one reference in a trace. -/
def isPrepareFor (ref : Nat) : Event → Bool
  | Event.prepareCall _ _ r => r == ref
  | _ => false

/-- Counts the raw archive reads for one reference in a trace. -/
def isRawReadFor (ref : Nat) : Event → Bool
  | Event.rawRead r => r == ref
  | _ => false

/-- Number of prepareContentReader invocations for a reference in a trace. -/
def prepareCountFor (ref : Nat) (tr : List Event) : Nat :=
  tr.countP (isPrepareFor ref)

/-- Number of raw archive reads for a reference in a trace. -/
def rawReadCountFor (ref : Nat) (tr : List Event) : Nat :=
  tr.countP (isRawReadFor ref)

/-- The (layer index, entry index, observer index) key of a send event. -/
def sendKey : Event → Option (Nat × Nat × Nat)
  | Event.send L E o _ => some (L, E, o)
  | _ => none

/-- The keys of the send events of a trace, in trace order. -/
def sendKeys (tr : List Event) : List (Nat × Nat × Nat) :=
  tr.filterMap sendKey

/-- Lexicographic order on (layer index, entry index, observer index) keys. -/
def keyLt (a b : Nat × Nat × Nat) : Prop :=
  a.1 < b.1 ∨ (a.1 = b.1 ∧ (a.2.1 < b.2.1 ∨ (a.2.1 = b.2.1 ∧ a.2.2 < b.2.2)))

/-! Concrete fixtures used to evaluate the definitions at specific inputs. -/

/-- A sample tree with one path. -/
def wTree : FileTree := [("/bin/real", 1)]

/-- A sample layer whose squashed tree is already populated. -/
def wLayer1 : Layer :=
  { Metadata := ⟨"d0"⟩, Tree := wTree, SquashedTree := wTree,
    content := Except.ok [] }

/-- A one-layer sample image. -/
def wImg3 : Image :=
  { Metadata := ⟨none⟩, Layers := [wLayer1], FileCatalog := ⟨[], []⟩ }

/-- A zero-layer sample image. -/
def wImgE : Image :=
  { Metadata := ⟨none⟩, Layers := [], FileCatalog := ⟨[], []⟩ }

/-- A sample file reference. -/
def wRef : FileRef := ⟨1, "/bin/link"⟩

/-- A resolver that records the option list it was handed. -/
def optsFile : FileTree → String → List LinkResolutionOption →
    List LinkResolutionOption := fun _ _ opts => opts

/-- A resolver that consults only whether one policy is enabled, so its result
depends on the option set rather than the option sequence. -/
def memFile : FileTree → String → List LinkResolutionOption → Bool :=
  fun _ _ opts => decide (LinkResolutionOption.Other 1 ∈ opts)

/-- A sample tag parser that rejects the text bad. -/
def NewTagW : String → Except String Tag :=
  fun s => if s = "bad" then Except.error "parse failure" else Except.ok s

/-- A sample union engine: concatenate the pushed trees. -/
def wEngine : List FileTree → Except String FileTree :=
  fun ts => Except.ok ts.flatten

/-- A sample bottom layer (squash pass input). -/
def wLa : Layer :=
  { Metadata := ⟨"da"⟩, Tree := [("/a", 1)], SquashedTree := [],
    content := Except.ok [] }

/-- A sample top layer (squash pass input). -/
def wLb : Layer :=
  { Metadata := ⟨"db"⟩, Tree := [("/b", 2)], SquashedTree := [],
    content := Except.ok [] }

/-- The squash pass output for the bottom sample layer. -/
def wLaRes : Layer := { wLa with SquashedTree := [("/a", 1)] }

/-- The squash pass output for the top sample layer. -/
def wLbRes : Layer := { wLb with SquashedTree := [("/a", 1), ("/b", 2)] }

/-- Two observers that are both interested in every reference. -/
def cObs2 : List Observer := [⟨fun _ => true⟩, ⟨fun _ => true⟩]

/-- A one-layer, one-entry image whose catalog matches its archive. -/
def cImg2 : Image :=
  { Metadata := ⟨none⟩,
    Layers := [{ Metadata := ⟨"d0"⟩, Tree := [], SquashedTree := [],
                 content := Except.ok [⟨"f"⟩] }],
    FileCatalog := ⟨[("d0", [⟨1, "f"⟩])], []⟩ }

/-- A single observer interested in every reference. -/
def wObs1 : List Observer := [⟨fun _ => true⟩]

/-- A layer whose archive mutated between passes: its second live entry is now
named evil. -/
def wBadLayer : Layer :=
  { Metadata := ⟨"d0"⟩, Tree := [], SquashedTree := [],
    content := Except.ok [⟨"good"⟩, ⟨"evil"⟩] }

/-- An image over wBadLayer whose catalog recorded the name f2 for the second
entry of that layer. -/
def wImgBad : Image :=
  { Metadata := ⟨none⟩,
    Layers := [wBadLayer],
    FileCatalog := ⟨[("d0", [⟨1, "good"⟩, ⟨2, "f2"⟩])], []⟩ }

/-- Single-flight invariant for one reference across a pipeline stage: starting
from cache and ending at cache2 with trace tr, cache membership is preserved, a
cached reference is never raw-read, the reference is raw-read at most once, and
once raw-read it ends up cached. -/
def ReadOnceInv (ref : Nat) (cache : List Nat) (tr : List Event)
    (cache2 : List Nat) : Prop :=
  (ref ∈ cache → ref ∈ cache2) ∧
  (ref ∈ cache → rawReadCountFor ref tr = 0) ∧
  rawReadCountFor ref tr ≤ 1 ∧
  (1 ≤ rawReadCountFor ref tr → ref ∈ cache2)

/-! Helper lemmas. -/

lemma rawReadCountFor_append (ref : Nat) (t1 t2 : List Event) :
    rawReadCountFor ref (t1 ++ t2) =
      rawReadCountFor ref t1 + rawReadCountFor ref t2 := by
  simp [rawReadCountFor, List.countP_append]

lemma prepareCountFor_append (ref : Nat) (t1 t2 : List Event) :
    prepareCountFor ref (t1 ++ t2) =
      prepareCountFor ref t1 + prepareCountFor ref t2 := by
  simp [prepareCountFor, List.countP_append]

lemma readOnce_comp {ref : Nat} {c0 c1 c2 : List Nat} {t1 t2 : List Event}
    (h1 : ReadOnceInv ref c0 t1 c1) (h2 : ReadOnceInv ref c1 t2 c2) :
    ReadOnceInv ref c0 (t1 ++ t2) c2 := by
  obtain ⟨m1, z1, b1, u1⟩ := h1
  obtain ⟨m2, z2, b2, u2⟩ := h2
  refine ⟨fun h => m2 (m1 h), ?_, ?_, ?_⟩
  · intro h
    rw [rawReadCountFor_append, z1 h, z2 (m1 h)]
  · rw [rawReadCountFor_append]
    by_cases h1c : 1 ≤ rawReadCountFor ref t1
    · have := z2 (u1 h1c)
      omega
    · omega
  · intro h
    rw [rawReadCountFor_append] at h
    by_cases h2c : 1 ≤ rawReadCountFor ref t2
    · exact u2 h2c
    · exact m2 (u1 (by omega))

lemma readOnce_zero {ref : Nat} (c : List Nat) (t : List Event)
    (h : rawReadCountFor ref t = 0) : ReadOnceInv ref c t c :=
  ⟨id, fun _ => h, by omega, fun hh => absurd hh (by omega)⟩

lemma readOnce_prepare (ref L E r : Nat) (cache : List Nat) :
    ReadOnceInv ref cache (prepareContentReader L E r cache).1
      (prepareContentReader L E r cache).2 := by
  unfold prepareContentReader
  split
  · exact readOnce_zero cache _ (by simp [rawReadCountFor, isRawReadFor])
  · rename_i hr
    have hcount : rawReadCountFor ref [Event.prepareCall L E r, Event.rawRead r]
        = if r = ref then 1 else 0 := by
      simp [rawReadCountFor, isRawReadFor, List.countP_cons]
    by_cases heq : r = ref
    · subst heq
      refine ⟨fun h => List.mem_cons_of_mem _ h, fun h => absurd h hr, ?_, ?_⟩
      · rw [hcount]
        simp
      · intro _
        exact List.mem_cons_self _ _
    · refine ⟨fun h => List.mem_cons_of_mem _ h, fun _ => ?_, ?_, ?_⟩
      · rw [hcount]
        simp [heq]
      · rw [hcount]
        simp [heq]
      · intro hh
        rw [hcount] at hh
        simp [heq] at hh

lemma readOnce_deliver (ref L E r : Nat) :
    ∀ (os : List Observer) (cache : List Nat) (j : Nat),
      ReadOnceInv ref cache (deliverToObservers L E r os cache j).1
        (deliverToObservers L E r os cache j).2 := by
  intro os
  induction os with
  | nil =>
    intro cache j
    exact readOnce_zero cache _ (by simp [deliverToObservers, rawReadCountFor])
  | cons o os ih =>
    intro cache j
    simp only [deliverToObservers]
    split
    · have hp := readOnce_prepare ref L E r cache
      have hsend : ReadOnceInv ref (prepareContentReader L E r cache).2
          [Event.send L E j r] (prepareContentReader L E r cache).2 :=
        readOnce_zero _ _ (by simp [rawReadCountFor, isRawReadFor])
      have hrest := ih (prepareContentReader L E r cache).2 (j + 1)
      have := readOnce_comp hp (readOnce_comp hsend hrest)
      simpa [List.append_assoc] using this
    · exact ih cache (j + 1)

lemma readOnce_tarVisitor (ref : Nat) (cat : FileCatalog) (digest : String)
    (observers : List Observer) (L : Nat) (cache : List Nat) (index : Nat)
    (header : TarEntry) :
    ReadOnceInv ref cache (tarVisitor cat digest observers L cache index header).1
      (tarVisitor cat digest observers L cache index header).2.1 := by
  rcases hE : cat.getByLayerTarIndex digest index with e | entry
  · simp only [tarVisitor, hE]
    exact readOnce_zero _ _ (by simp [rawReadCountFor])
  · by_cases hm : entry.TarHeaderName ≠ header.Name
    · simp only [tarVisitor, hE, if_pos hm]
      exact readOnce_zero _ _ (by simp [rawReadCountFor])
    · simp only [tarVisitor, hE, if_neg hm]
      exact readOnce_deliver ref L index entry.File observers cache 0

lemma readOnce_visitEntries (ref : Nat) (cat : FileCatalog) (digest : String)
    (observers : List Observer) (L : Nat) :
    ∀ (es : List TarEntry) (cache : List Nat) (i : Nat),
      ReadOnceInv ref cache (visitEntries cat digest observers L cache i es).1
        (visitEntries cat digest observers L cache i es).2.1 := by
  intro es
  induction es with
  | nil =>
    intro cache i
    exact readOnce_zero _ _ (by simp [visitEntries, rawReadCountFor])
  | cons e es ih =>
    intro cache i
    have hvInv := readOnce_tarVisitor ref cat digest observers L cache i e
    rcases hv : tarVisitor cat digest observers L cache i e with ⟨evs, cache2, err⟩
    rw [hv] at hvInv
    cases err with
    | some m =>
      simp only [visitEntries, hv]
      exact hvInv
    | none =>
      simp only [visitEntries, hv]
      exact readOnce_comp hvInv (ih cache2 (i + 1))

lemma readOnce_visitLayers (ref : Nat) (cat : FileCatalog)
    (observers : List Observer) :
    ∀ (ls : List Layer) (cache : List Nat) (L : Nat),
      ReadOnceInv ref cache (visitLayers cat observers cache L ls).1
        (visitLayers cat observers cache L ls).2.1 := by
  intro ls
  induction ls with
  | nil =>
    intro cache L
    exact readOnce_zero _ _ (by simp [visitLayers, rawReadCountFor])
  | cons l ls ih =>
    intro cache L
    cases hcont : l.content with
    | error m =>
      simp only [visitLayers, hcont]
      exact readOnce_zero _ _ (by simp [rawReadCountFor, isRawReadFor])
    | ok entries =>
      have hvInv := readOnce_visitEntries ref cat l.Metadata.Digest observers L
        entries cache 0
      rcases hv : visitEntries cat l.Metadata.Digest observers L cache 0 entries
        with ⟨evs, cache2, err⟩
      rw [hv] at hvInv
      have hopen : ReadOnceInv ref cache [Event.openLayer L] cache :=
        readOnce_zero _ _ (by simp [rawReadCountFor, isRawReadFor])
      cases err with
      | some m =>
        simp only [visitLayers, hcont, hv]
        simpa using readOnce_comp hopen hvInv
      | none =>
        simp only [visitLayers, hcont, hv]
        simpa using readOnce_comp hopen (readOnce_comp hvInv (ih cache2 (L + 1)))

lemma rawReadCountFor_closes (ref : Nat) (n : Nat) :
    rawReadCountFor ref ((List.range n).map Event.closeChan) = 0 := by
  rw [rawReadCountFor, List.countP_eq_zero]
  intro a ha
  obtain ⟨j, -, hj⟩ := List.mem_map.mp ha
  subst hj
  simp [isRawReadFor]

lemma deliver_prepareCount (L E ref : Nat) :
    ∀ (os : List Observer) (cache : List Nat) (j : Nat),
      prepareCountFor ref (deliverToObservers L E ref os cache j).1 =
        (os.filter (fun o => o.IsInterestedIn ref)).length := by
  intro os
  induction os with
  | nil =>
    intro cache j
    simp [deliverToObservers, prepareCountFor]
  | cons o os ih =>
    intro cache j
    simp only [deliverToObservers]
    split
    · rename_i hint
      dsimp only
      have hp : prepareCountFor ref (prepareContentReader L E ref cache).1 = 1 := by
        unfold prepareContentReader
        split <;> simp [prepareCountFor, isPrepareFor, List.countP_cons]
      have hs : prepareCountFor ref
          (Event.send L E j ref ::
            (deliverToObservers L E ref os (prepareContentReader L E ref cache).2
              (j + 1)).1) =
          (os.filter (fun o => o.IsInterestedIn ref)).length := by
        rw [prepareCountFor, List.countP_cons]
        have hz : isPrepareFor ref (Event.send L E j ref) = false := rfl
        rw [hz]
        simpa [prepareCountFor] using
          ih (prepareContentReader L E ref cache).2 (j + 1)
      rw [prepareCountFor_append, hp, hs, List.filter_cons]
      simp only [hint, if_true, List.length_cons]
      omega
    · rename_i hint
      have hf : o.IsInterestedIn ref = false := by simpa using hint
      rw [List.filter_cons]
      simp only [hf, Bool.false_eq_true, if_false]
      exact ih cache (j + 1)

lemma goIndex_pos {α : Type} (xs : List α) (i : Int) (h0 : 0 ≤ i)
    (h1 : i.toNat < xs.length) :
    ∃ a, xs.get? i.toNat = some a ∧ goIndex xs i = some a := by
  refine ⟨xs.get ⟨i.toNat, h1⟩, List.get?_eq_get h1, ?_⟩
  rw [goIndex, dif_pos ⟨h0, h1⟩]

lemma squashLoop_spec (engine : List FileTree → Except String FileTree)
    (ls : List Layer) :
    ∀ (last : FileTree) (idx : Nat) (res : List Layer),
      Image.squashLoop engine last idx ls = Except.ok res →
      res.length = ls.length ∧
      (∀ r0 l0, res.get? 0 = some r0 → ls.get? 0 = some l0 →
        ((NewUnionFileTree.PushTree last).PushTree l0.Tree).Squash engine =
          Except.ok r0.SquashedTree) ∧
      (∀ k rk rk1 lk1, res.get? k = some rk → res.get? (k + 1) = some rk1 →
        ls.get? (k + 1) = some lk1 →
        ((NewUnionFileTree.PushTree rk.SquashedTree).PushTree lk1.Tree).Squash
            engine = Except.ok rk1.SquashedTree) := by
  induction ls with
  | nil =>
    intro last idx res h
    simp only [Image.squashLoop, Except.ok.injEq] at h
    subst h
    refine ⟨rfl, ?_, ?_⟩ <;> intros <;> simp_all
  | cons layer ls ih =>
    intro last idx res h
    simp only [Image.squashLoop] at h
    split at h
    · exact absurd h (by simp)
    · rename_i squashedTree hSq
      split at h
      · exact absurd h (by simp)
      · rename_i rest hRest
        simp only [Except.ok.injEq] at h
        subst h
        obtain ⟨ihLen, ihFirst, ihRec⟩ := ih squashedTree (idx + 1) rest hRest
        refine ⟨by simp [ihLen], ?_, ?_⟩
        · intro r0 l0 h0 h1
          simp only [List.get?_cons_zero, Option.some.injEq] at h0 h1
          subst h0; subst h1
          exact hSq
        · intro k rk rk1 lk1 h1 h2 h3
          cases k with
          | zero =>
            simp only [List.get?_cons_zero, List.get?_cons_succ,
              Option.some.injEq] at h1 h2 h3
            subst h1
            exact ihFirst rk1 lk1 h2 h3
          | succ k =>
            simp only [List.get?_cons_succ] at h1 h2 h3
            exact ihRec k rk rk1 lk1 h1 h2 h3

lemma withTagsLoop_ok (NewTag : String → Except String Tag) :
    ∀ tags : List String, (∀ t ∈ tags, ∃ tg, NewTag t = Except.ok tg) →
      ∃ parsed, withTagsLoop NewTag tags = Except.ok parsed ∧
        parsed.length = tags.length ∧
        ∀ k t, tags.get? k = some t →
          ∃ tg, NewTag t = Except.ok tg ∧ parsed.get? k = some tg := by
  intro tags
  induction tags with
  | nil =>
    intro _
    exact ⟨[], rfl, rfl, by intro k t h; simp at h⟩
  | cons t ts ih =>
    intro hall
    obtain ⟨tg, htg⟩ := hall t (List.mem_cons_self t ts)
    obtain ⟨parsed, hp, hlen, hpt⟩ :=
      ih (fun u hu => hall u (List.mem_cons_of_mem t hu))
    refine ⟨tg :: parsed, ?_, by simp [hlen], ?_⟩
    · simp only [withTagsLoop, htg, hp]
    · intro k u hk
      cases k with
      | zero =>
        simp only [List.get?_cons_zero, Option.some.injEq] at hk
        subst hk
        exact ⟨tg, htg, rfl⟩
      | succ k =>
        simp only [List.get?_cons_succ] at hk ⊢
        exact hpt k u hk

lemma withTagsLoop_err (NewTag : String → Except String Tag) :
    ∀ (pre : List String) (bad : String) (rest : List String) (e : String),
      (∀ t ∈ pre, ∃ tg, NewTag t = Except.ok tg) →
      NewTag bad = Except.error e →
      withTagsLoop NewTag (pre ++ bad :: rest) = Except.error e := by
  intro pre
  induction pre with
  | nil =>
    intro bad rest e _ hbad
    simp only [List.nil_append, withTagsLoop, hbad]
  | cons t ts ih =>
    intro bad rest e hall hbad
    obtain ⟨tg, htg⟩ := hall t (List.mem_cons_self t ts)
    have h2 : withTagsLoop NewTag (ts.append (bad :: rest)) = Except.error e :=
      ih bad rest e (fun u hu => hall u (List.mem_cons_of_mem t hu)) hbad
    simp only [List.cons_append, withTagsLoop, htg, h2]

/-! Claim theorems. -/

/-- Claim C6: calling IterateContent with an empty observer list returns an
error immediately, with an empty action trace — in particular no layer archive
is opened or read. -/
theorem iterate_no_observers_immediate_error (i : Image) :
    i.IterateContent [] = ([], Except.error "no content observers provided") :=
  rfl

/-- Claim C3: SquashedTree() returns the top (highest-index) layer's squashed
tree, and the empty file tree for an image with zero layers. -/
theorem squashed_tree_top_layer (i : Image) :
    (i.Layers = [] → i.SquashedTree = NewFileTree) ∧
    ∀ h : i.Layers ≠ [], i.SquashedTree = (i.Layers.getLast h).SquashedTree := by
  constructor
  · intro h
    simp [Image.SquashedTree, h]
  · intro h
    have hl : i.Layers.length ≠ 0 := fun hh => h (List.length_eq_zero.mp hh)
    simp only [Image.SquashedTree]
    rw [dif_neg hl]
    congr 1
    rw [List.getLast_eq_getElem, List.get_eq_getElem]

/-- Witness for claim C3, at a one-layer image and at a zero-layer image. -/
theorem squashed_tree_top_layer_witness :
    wImgE.SquashedTree = NewFileTree ∧
    wImg3.SquashedTree =
      (wImg3.Layers.getLast (by exact List.cons_ne_nil _ _)).SquashedTree :=
  ⟨(squashed_tree_top_layer wImgE).1 rfl,
   (squashed_tree_top_layer wImg3).2 (by exact List.cons_ne_nil _ _)⟩

/-- Claim C1: the squash pass is incremental and ordered — when it succeeds,
the result has one squashed tree per layer, layer 0's squashed tree is its own
file tree, and for every k the squashed tree at k+1 is produced by pushing
exactly two trees into a fresh union tree, the squash at k first and layer
k+1's own tree second, and squashing them. -/
theorem squash_incremental_recurrence
    (engine : List FileTree → Except String FileTree)
    (layers res : List Layer) (h : Image.squash engine layers = Except.ok res) :
    res.length = layers.length ∧
    (∀ r0 l0, res.get? 0 = some r0 → layers.get? 0 = some l0 →
      r0.SquashedTree = l0.Tree) ∧
    (∀ k rk rk1 lk1, res.get? k = some rk → res.get? (k + 1) = some rk1 →
      layers.get? (k + 1) = some lk1 →
      ((NewUnionFileTree.PushTree rk.SquashedTree).PushTree lk1.Tree).Squash
          engine = Except.ok rk1.SquashedTree) := by
  cases layers with
  | nil =>
    simp only [Image.squash, Except.ok.injEq] at h
    subst h
    refine ⟨rfl, ?_, ?_⟩ <;> intros <;> simp_all
  | cons layer ls =>
    simp only [Image.squash] at h
    split at h
    · exact absurd h (by simp)
    · rename_i rest hRest
      simp only [Except.ok.injEq] at h
      subst h
      obtain ⟨ihLen, ihFirst, ihRec⟩ := squashLoop_spec engine ls layer.Tree 1 rest hRest
      refine ⟨by simp [ihLen], ?_, ?_⟩
      · intro r0 l0 h0 h1
        simp only [List.get?_cons_zero, Option.some.injEq] at h0 h1
        subst h0; subst h1
        rfl
      · intro k rk rk1 lk1 h1 h2 h3
        cases k with
        | zero =>
          simp only [List.get?_cons_zero, List.get?_cons_succ,
            Option.some.injEq] at h1 h2 h3
          subst h1
          exact ihFirst rk1 lk1 h2 h3
        | succ k =>
          simp only [List.get?_cons_succ] at h1 h2 h3
          exact ihRec k rk rk1 lk1 h1 h2 h3

/-- Witness for claim C1: a concrete two-layer squash computed with a concrete
engine, whose outputs satisfy the stated recurrence. -/
theorem squash_incremental_recurrence_witness :
    wLaRes.SquashedTree = wLa.Tree ∧
    ((NewUnionFileTree.PushTree wLaRes.SquashedTree).PushTree wLb.Tree).Squash
        wEngine = Except.ok wLbRes.SquashedTree := by
  have h : Image.squash wEngine [wLa, wLb] = Except.ok [wLaRes, wLbRes] := rfl
  exact ⟨(squash_incremental_recurrence wEngine _ _ h).2.1 wLaRes wLa rfl rfl,
    (squash_incremental_recurrence wEngine _ _ h).2.2 0 wLaRes wLbRes wLb rfl rfl rfl⟩

/-- Claim C10: the WithTags override is atomic over the tag list — when every
tag parses, Metadata.Tags holds one parsed tag per input in order and no error
is returned; when the list decomposes as pre ++ bad :: rest with every tag of
pre parsing and bad failing, Metadata.Tags is set to nil (none) and that parse
error is returned. -/
theorem withTags_atomic (NewTag : String → Except String Tag)
    (tags : List String) (img : Image) :
    ((∀ t ∈ tags, ∃ tg, NewTag t = Except.ok tg) →
      ∃ parsed, WithTags NewTag tags img =
          ({ img with Metadata := { img.Metadata with Tags := some parsed } },
            none) ∧
        parsed.length = tags.length ∧
        ∀ k t, tags.get? k = some t →
          ∃ tg, NewTag t = Except.ok tg ∧ parsed.get? k = some tg) ∧
    (∀ pre bad rest e, tags = pre ++ bad :: rest →
      (∀ t ∈ pre, ∃ tg, NewTag t = Except.ok tg) →
      NewTag bad = Except.error e →
      WithTags NewTag tags img =
        ({ img with Metadata := { img.Metadata with Tags := none } }, some e)) := by
  constructor
  · intro hall
    obtain ⟨parsed, hp, hlen, hpt⟩ := withTagsLoop_ok NewTag tags hall
    exact ⟨parsed, by simp only [WithTags, hp], hlen, hpt⟩
  · intro pre bad rest e hdecomp hpre hbad
    subst hdecomp
    have h2 := withTagsLoop_err NewTag pre bad rest e hpre hbad
    simp only [WithTags, h2]

/-- Witness for claim C10: a parser rejecting the text bad, applied to a fully
parsable list and to a list whose middle element fails. -/
theorem withTags_atomic_witness :
    (∃ parsed, WithTags NewTagW ["a", "b"] wImgE =
        ({ wImgE with Metadata := { wImgE.Metadata with Tags := some parsed } },
          none) ∧
      parsed.length = (["a", "b"] : List String).length ∧
      ∀ k t, (["a", "b"] : List String).get? k = some t →
        ∃ tg, NewTagW t = Except.ok tg ∧ parsed.get? k = some tg) ∧
    WithTags NewTagW ["a", "bad", "c"] wImgE =
      ({ wImgE with Metadata := { wImgE.Metadata with Tags := none } },
        some "parse failure") := by
  constructor
  · refine (withTags_atomic NewTagW ["a", "b"] wImgE).1 ?_
    intro t ht
    refine ⟨t, ?_⟩
    fin_cases ht <;> rfl
  · refine (withTags_atomic NewTagW ["a", "bad", "c"] wImgE).2
      ["a"] "bad" ["c"] "parse failure" rfl ?_ rfl
    intro t ht
    refine ⟨t, ?_⟩
    fin_cases ht
    rfl

/-- Claim C7: both link-resolution entry points hand the external File lookup
an option list whose head is FollowBasenameLinks followed by exactly the
caller's options; and for any lookup whose behavior depends only on the set of
enabled policies (as the spec requires), the entry points are insensitive to
the order and multiplicity of the caller's options. -/
theorem resolve_link_options_policy :
    (∀ (β : Type) (File : FileTree → String → List LinkResolutionOption → β)
        (i : Image) (ref : FileRef) (layer : Int)
        (options : List LinkResolutionOption),
      0 ≤ layer → layer.toNat < i.Layers.length →
      ∃ l, i.Layers.get? layer.toNat = some l ∧
        i.ResolveLinkByLayerSquash File ref layer options =
          some (File l.SquashedTree ref.RealPath
            (LinkResolutionOption.FollowBasenameLinks :: options))) ∧
    (∀ (β : Type) (File : FileTree → String → List LinkResolutionOption → β)
        (i : Image) (ref : FileRef) (options : List LinkResolutionOption),
      0 < i.Layers.length →
      ∃ l, i.Layers.get? (i.Layers.length - 1) = some l ∧
        i.ResolveLinkByImageSquash File ref options =
          some (File l.SquashedTree ref.RealPath
            (LinkResolutionOption.FollowBasenameLinks :: options))) ∧
    (∀ (β : Type) (File : FileTree → String → List LinkResolutionOption → β),
      (∀ t p o1 o2, (∀ x, x ∈ o1 ↔ x ∈ o2) → File t p o1 = File t p o2) →
      ∀ (i : Image) (ref : FileRef) (layer : Int)
        (options options2 : List LinkResolutionOption),
        (∀ x, x ∈ options ↔ x ∈ options2) →
        i.ResolveLinkByLayerSquash File ref layer options =
          i.ResolveLinkByLayerSquash File ref layer options2 ∧
        i.ResolveLinkByImageSquash File ref options =
          i.ResolveLinkByImageSquash File ref options2) := by
  refine ⟨?_, ?_, ?_⟩
  · intro β File i ref layer options h0 h1
    obtain ⟨l, hget, hidx⟩ := goIndex_pos i.Layers layer h0 h1
    exact ⟨l, hget, by simp only [Image.ResolveLinkByLayerSquash, hidx,
      Option.map_some']⟩
  · intro β File i ref options h
    have h0 : (0 : Int) ≤ (i.Layers.length : Int) - 1 := by omega
    have h1 : ((i.Layers.length : Int) - 1).toNat < i.Layers.length := by omega
    obtain ⟨l, hget, hidx⟩ := goIndex_pos i.Layers ((i.Layers.length : Int) - 1) h0 h1
    have htn : ((i.Layers.length : Int) - 1).toNat = i.Layers.length - 1 := by omega
    rw [htn] at hget
    exact ⟨l, hget, by simp only [Image.ResolveLinkByImageSquash, hidx,
      Option.map_some']⟩
  · intro β File hFile i ref layer options options2 hmem
    have hcons : ∀ t p,
        File t p (LinkResolutionOption.FollowBasenameLinks :: options) =
          File t p (LinkResolutionOption.FollowBasenameLinks :: options2) := by
      intro t p
      apply hFile
      intro x
      simp only [List.mem_cons]
      exact or_congr Iff.rfl (hmem x)
    constructor
    · simp only [Image.ResolveLinkByLayerSquash]
      cases goIndex i.Layers layer with
      | none => rfl
      | some l => simp only [Option.map_some', hcons]
    · simp only [Image.ResolveLinkByImageSquash]
      cases goIndex i.Layers ((i.Layers.length : Int) - 1) with
      | none => rfl
      | some l => simp only [Option.map_some', hcons]

/-- Witness for claim C7: with a resolver that records its option list, both
entry points hand over FollowBasenameLinks prepended to the caller's options;
with a set-respecting resolver, permuting and duplicating caller options does
not change the result. -/
theorem resolve_link_options_policy_witness :
    (∃ l, wImg3.Layers.get? 0 = some l ∧
      wImg3.ResolveLinkByLayerSquash optsFile wRef 0 [LinkResolutionOption.Other 5] =
        some (optsFile l.SquashedTree wRef.RealPath
          (LinkResolutionOption.FollowBasenameLinks ::
            [LinkResolutionOption.Other 5]))) ∧
    (∃ l, wImg3.Layers.get? (wImg3.Layers.length - 1) = some l ∧
      wImg3.ResolveLinkByImageSquash optsFile wRef [] =
        some (optsFile l.SquashedTree wRef.RealPath
          [LinkResolutionOption.FollowBasenameLinks])) ∧
    wImg3.ResolveLinkByImageSquash memFile wRef
        [LinkResolutionOption.Other 1, LinkResolutionOption.Other 2] =
      wImg3.ResolveLinkByImageSquash memFile wRef
        [LinkResolutionOption.Other 2, LinkResolutionOption.Other 1,
          LinkResolutionOption.Other 1] := by
  refine ⟨?_, ?_, ?_⟩
  · exact resolve_link_options_policy.1 _ optsFile wImg3 wRef 0
      [LinkResolutionOption.Other 5] (by decide) (by decide)
  · exact resolve_link_options_policy.2.1 _ optsFile wImg3 wRef [] (by decide)
  · refine (resolve_link_options_policy.2.2 _ memFile ?_ wImg3 wRef 0 _ _ ?_).2
    · intro t p o1 o2 h
      simp only [memFile]
      exact decide_eq_decide.mpr (h (LinkResolutionOption.Other 1))
    · intro x
      constructor <;> intro hx <;> simp only [List.mem_cons] at hx ⊢ <;> tauto

/-- Claim C8: ResolveLinkByImageSquash indexes the layer list at length - 1
with no guard — for any image with at least one layer the lookup is in bounds
and produces a result, while for a zero-layer image the access is out of
bounds (modelled as none, the index panic), with no fallback to the empty
squash view that SquashedTree() returns for the same image. -/
theorem resolve_image_squash_bounds :
    (∀ (β : Type) (File : FileTree → String → List LinkResolutionOption → β)
        (i : Image) (ref : FileRef) (options : List LinkResolutionOption),
      0 < i.Layers.length →
      ∃ v, i.ResolveLinkByImageSquash File ref options = some v) ∧
    (∀ (β : Type) (File : FileTree → String → List LinkResolutionOption → β)
        (i : Image) (ref : FileRef) (options : List LinkResolutionOption),
      i.Layers = [] →
      i.ResolveLinkByImageSquash File ref options = none ∧
        i.SquashedTree = NewFileTree) := by
  constructor
  · intro β File i ref options h
    obtain ⟨l, _, hidx⟩ := goIndex_pos i.Layers ((i.Layers.length : Int) - 1)
      (by omega) (by omega)
    refine ⟨File l.SquashedTree ref.RealPath
      (LinkResolutionOption.FollowBasenameLinks :: options), ?_⟩
    simp only [Image.ResolveLinkByImageSquash, hidx, Option.map_some']
  · intro β File i ref options h
    constructor
    · simp only [Image.ResolveLinkByImageSquash, goIndex, h]
      rw [dif_neg (by simp)]
      rfl
    · simp [Image.SquashedTree, h]

/-- Witness for claim C8: the one-layer image resolves to a value, the
zero-layer image hits the unguarded out-of-bounds access while its
SquashedTree() is the empty tree. -/
theorem resolve_image_squash_bounds_witness :
    (∃ v, wImg3.ResolveLinkByImageSquash optsFile wRef [] = some v) ∧
    (wImgE.ResolveLinkByImageSquash optsFile wRef [] = none ∧
      wImgE.SquashedTree = NewFileTree) :=
  ⟨resolve_image_squash_bounds.1 _ optsFile wImg3 wRef [] (by decide),
   resolve_image_squash_bounds.2 _ optsFile wImgE wRef [] rfl⟩

lemma visitEntries_append (cat : FileCatalog) (digest : String)
    (observers : List Observer) (L : Nat) (E1 : List TarEntry) :
    ∀ (E2 : List TarEntry) (cache : List Nat) (i : Nat) (tr : List Event)
      (c : List Nat),
      visitEntries cat digest observers L cache i E1 = (tr, c, none) →
      visitEntries cat digest observers L cache i (E1 ++ E2) =
        (tr ++ (visitEntries cat digest observers L c (i + E1.length) E2).1,
          (visitEntries cat digest observers L c (i + E1.length) E2).2) := by
  induction E1 with
  | nil =>
    intro E2 cache i tr c h
    simp only [visitEntries, Prod.mk.injEq] at h
    obtain ⟨htr, hc, -⟩ := h
    subst htr
    subst hc
    simp
  | cons e E1 ih =>
    intro E2 cache i tr c h
    simp only [visitEntries] at h
    rcases hv : tarVisitor cat digest observers L cache i e with ⟨evs, cache2, err⟩
    cases err with
    | some m =>
      simp only [hv] at h
      simp at h
    | none =>
      simp only [hv] at h
      rcases hr : visitEntries cat digest observers L cache2 (i + 1) E1
        with ⟨tr1, c1, err1⟩
      simp only [hr, Prod.mk.injEq] at h
      obtain ⟨htr, hc, herr⟩ := h
      subst htr
      subst hc
      cases err1 with
      | some m => simp at herr
      | none =>
        have ha := ih E2 cache2 (i + 1) tr1 c1 hr
        simp only [List.cons_append, visitEntries, hv, List.append_eq, ha]
        have hn : i + 1 + E1.length = i + (e :: E1).length := by
          simp only [List.length_cons]
          omega
        rw [hn]
        simp [List.append_assoc]

lemma visitLayers_append (cat : FileCatalog) (observers : List Observer)
    (L1 : List Layer) :
    ∀ (L2 : List Layer) (cache : List Nat) (L : Nat) (tr : List Event)
      (c : List Nat),
      visitLayers cat observers cache L L1 = (tr, c, none) →
      visitLayers cat observers cache L (L1 ++ L2) =
        (tr ++ (visitLayers cat observers c (L + L1.length) L2).1,
          (visitLayers cat observers c (L + L1.length) L2).2) := by
  induction L1 with
  | nil =>
    intro L2 cache L tr c h
    simp only [visitLayers, Prod.mk.injEq] at h
    obtain ⟨htr, hc, -⟩ := h
    subst htr
    subst hc
    simp
  | cons l L1 ih =>
    intro L2 cache L tr c h
    simp only [visitLayers] at h
    cases hcont : l.content with
    | error m =>
      simp only [hcont] at h
      simp at h
    | ok entries =>
      simp only [hcont] at h
      rcases hv : visitEntries cat l.Metadata.Digest observers L cache 0 entries
        with ⟨evs, cache2, err⟩
      cases err with
      | some m =>
        simp only [hv] at h
        simp at h
      | none =>
        simp only [hv] at h
        rcases hr : visitLayers cat observers cache2 (L + 1) L1
          with ⟨tr1, c1, err1⟩
        simp only [hr, Prod.mk.injEq] at h
        obtain ⟨htr, hc, herr⟩ := h
        subst htr
        subst hc
        cases err1 with
        | some m => simp at herr
        | none =>
          have ha := ih L2 cache2 (L + 1) tr1 c1 hr
          simp only [List.cons_append, visitLayers, hcont, hv, List.append_eq, ha]
          have hn : L + 1 + L1.length = L + (l :: L1).length := by
            simp only [List.length_cons]
            omega
          rw [hn]
          simp [List.append_assoc]

/-- Claim C9: on every return from IterateContent — successful completion or a
fatal error partway through the pass — every observer's channel is closed, so
every observer sees end-of-stream even when the run aborts. -/
theorem iterate_closes_all_channels (i : Image) (observers : List Observer)
    (j : Nat) (hj : j < observers.length) :
    Event.closeChan j ∈ (i.IterateContent observers).1 := by
  have hne : ¬observers.length = 0 := by omega
  unfold Image.IterateContent
  rw [if_neg hne]
  exact List.mem_append_right _
    (List.mem_map.mpr ⟨j, List.mem_range.mpr hj, rfl⟩)

/-- Witness for claim C9: in a run that aborts with a header mismatch after
delivering only part of the stream, the second observer's channel is still
closed. -/
theorem iterate_closes_all_channels_witness :
    Event.closeChan 1 ∈ (wImgBad.IterateContent cObs2).1 :=
  iterate_closes_all_channels wImgBad cObs2 1 (by decide)

/-- Claim C4: when the live tar header name of a visited entry differs from
the archive-entry name recorded in the catalog, the whole pipeline run returns
that mismatch as an error, and the trace stops at the clean prefix — no events
for the offending entry, the rest of its layer, or any later layer are
produced, apart from the deferred channel closes. -/
theorem iterate_mismatch_aborts (img : Image) (observers : List Observer)
    (L1 L2 : List Layer) (l : Layer) (E1 E2 : List TarEntry) (e : TarEntry)
    (entry : FileCatalogEntry) (tr1 tr2 : List Event) (c1 c2 : List Nat)
    (hobs : observers.length ≠ 0)
    (hlayers : img.Layers = L1 ++ l :: L2)
    (h1 : visitLayers img.FileCatalog observers img.FileCatalog.cache 0 L1 =
      (tr1, c1, none))
    (hcontent : l.content = Except.ok (E1 ++ e :: E2))
    (h2 : visitEntries img.FileCatalog l.Metadata.Digest observers L1.length
      c1 0 E1 = (tr2, c2, none))
    (hlookup : img.FileCatalog.getByLayerTarIndex l.Metadata.Digest E1.length =
      Except.ok entry)
    (hmm : entry.TarHeaderName ≠ e.Name) :
    img.IterateContent observers =
      (tr1 ++ (Event.openLayer L1.length :: tr2)
        ++ (List.range observers.length).map Event.closeChan,
       Except.error ("mismatched tar header names : " ++ e.Name ++ " != "
         ++ entry.TarHeaderName)) := by
  have e1 : visitEntries img.FileCatalog l.Metadata.Digest observers L1.length
      c2 E1.length (e :: E2) =
      ([], c2, some ("mismatched tar header names : " ++ e.Name ++ " != "
        ++ entry.TarHeaderName)) := by
    simp only [visitEntries, tarVisitor, hlookup]
    rw [if_pos hmm]
  have e2 : visitEntries img.FileCatalog l.Metadata.Digest observers L1.length
      c1 0 (E1 ++ e :: E2) =
      (tr2, c2, some ("mismatched tar header names : " ++ e.Name ++ " != "
        ++ entry.TarHeaderName)) := by
    have := visitEntries_append img.FileCatalog l.Metadata.Digest observers
      L1.length E1 (e :: E2) c1 0 tr2 c2 h2
    rw [this]
    simp only [Nat.zero_add, e1, List.append_nil]
  have e3 : visitLayers img.FileCatalog observers c1 L1.length (l :: L2) =
      (Event.openLayer L1.length :: tr2, c2,
        some ("mismatched tar header names : " ++ e.Name ++ " != "
          ++ entry.TarHeaderName)) := by
    simp only [visitLayers, hcontent, e2]
  have e4 : visitLayers img.FileCatalog observers img.FileCatalog.cache 0
      (L1 ++ l :: L2) =
      (tr1 ++ (Event.openLayer L1.length :: tr2), c2,
        some ("mismatched tar header names : " ++ e.Name ++ " != "
          ++ entry.TarHeaderName)) := by
    have := visitLayers_append img.FileCatalog observers L1 (l :: L2)
      img.FileCatalog.cache 0 tr1 c1 h1
    rw [this]
    simp only [Nat.zero_add, e3]
  unfold Image.IterateContent
  rw [if_neg hobs, hlayers, e4]


lemma sendKeys_append (t1 t2 : List Event) :
    sendKeys (t1 ++ t2) = sendKeys t1 ++ sendKeys t2 := by
  simp [sendKeys, List.filterMap_append]

lemma sendKeys_prepare (L E r : Nat) (cache : List Nat) :
    sendKeys (prepareContentReader L E r cache).1 = [] := by
  unfold prepareContentReader
  split <;> simp [sendKeys, sendKey, List.filterMap_cons]

lemma deliver_sendKeys (L E r : Nat) :
    ∀ (os : List Observer) (cache : List Nat) (j : Nat),
      (∀ k ∈ sendKeys (deliverToObservers L E r os cache j).1,
        k.1 = L ∧ k.2.1 = E ∧ j ≤ k.2.2) ∧
      List.Pairwise keyLt (sendKeys (deliverToObservers L E r os cache j).1) := by
  intro os
  induction os with
  | nil =>
    intro cache j
    constructor
    · intro k hk
      simp [deliverToObservers, sendKeys] at hk
    · simp [deliverToObservers, sendKeys]
  | cons o os ih =>
    intro cache j
    simp only [deliverToObservers]
    split
    · have hkeys : sendKeys ((prepareContentReader L E r cache).1 ++
          Event.send L E j r ::
          (deliverToObservers L E r os (prepareContentReader L E r cache).2
            (j + 1)).1) =
          (L, E, j) :: sendKeys (deliverToObservers L E r os
            (prepareContentReader L E r cache).2 (j + 1)).1 := by
        rw [sendKeys_append, sendKeys_prepare]
        simp [sendKeys, List.filterMap_cons, sendKey]
      obtain ⟨ihB, ihP⟩ := ih (prepareContentReader L E r cache).2 (j + 1)
      constructor
      · intro k hk
        rw [hkeys] at hk
        rcases List.mem_cons.mp hk with h | h
        · subst h
          exact ⟨rfl, rfl, le_refl j⟩
        · obtain ⟨h1, h2, h3⟩ := ihB k h
          exact ⟨h1, h2, by omega⟩
      · rw [hkeys]
        refine List.Pairwise.cons ?_ ihP
        intro k hk
        obtain ⟨h1, h2, h3⟩ := ihB k hk
        right
        exact ⟨h1.symm, Or.inr ⟨h2.symm, show j < k.2.2 by omega⟩⟩
    · obtain ⟨ihB, ihP⟩ := ih cache (j + 1)
      constructor
      · intro k hk
        obtain ⟨h1, h2, h3⟩ := ihB k hk
        exact ⟨h1, h2, by omega⟩
      · exact ihP

lemma visitEntries_sendKeys (cat : FileCatalog) (digest : String)
    (observers : List Observer) (L : Nat) :
    ∀ (es : List TarEntry) (cache : List Nat) (i : Nat),
      (∀ k ∈ sendKeys (visitEntries cat digest observers L cache i es).1,
        k.1 = L ∧ i ≤ k.2.1) ∧
      List.Pairwise keyLt
        (sendKeys (visitEntries cat digest observers L cache i es).1) := by
  intro es
  induction es with
  | nil =>
    intro cache i
    constructor
    · intro k hk
      simp [visitEntries, sendKeys] at hk
    · simp [visitEntries, sendKeys]
  | cons e es ih =>
    intro cache i
    have htv : (∀ k ∈ sendKeys (tarVisitor cat digest observers L cache i e).1,
        k.1 = L ∧ k.2.1 = i) ∧
        List.Pairwise keyLt
          (sendKeys (tarVisitor cat digest observers L cache i e).1) := by
      rcases hE : cat.getByLayerTarIndex digest i with m | entry
      · simp only [tarVisitor, hE]
        constructor
        · intro k hk
          simp [sendKeys] at hk
        · simp [sendKeys]
      · by_cases hm : entry.TarHeaderName ≠ e.Name
        · simp only [tarVisitor, hE, if_pos hm]
          constructor
          · intro k hk
            simp [sendKeys] at hk
          · simp [sendKeys]
        · simp only [tarVisitor, hE, if_neg hm]
          obtain ⟨hB, hP⟩ := deliver_sendKeys L i entry.File observers cache 0
          exact ⟨fun k hk => ⟨(hB k hk).1, (hB k hk).2.1⟩, hP⟩
    rcases hv : tarVisitor cat digest observers L cache i e with ⟨evs, cache2, err⟩
    rw [hv] at htv
    cases err with
    | some m =>
      simp only [visitEntries, hv]
      exact ⟨fun k hk => ⟨(htv.1 k hk).1, le_of_eq (htv.1 k hk).2.symm⟩, htv.2⟩
    | none =>
      simp only [visitEntries, hv]
      obtain ⟨ihB, ihP⟩ := ih cache2 (i + 1)
      constructor
      · intro k hk
        rw [sendKeys_append] at hk
        rcases List.mem_append.mp hk with h | h
        · exact ⟨(htv.1 k h).1, le_of_eq (htv.1 k h).2.symm⟩
        · obtain ⟨h1, h2⟩ := ihB k h
          exact ⟨h1, by omega⟩
      · rw [sendKeys_append]
        refine List.pairwise_append.mpr ⟨htv.2, ihP, ?_⟩
        intro a ha b hb
        obtain ⟨ha1, ha2⟩ := htv.1 a ha
        obtain ⟨hb1, hb2⟩ := ihB b hb
        right
        refine ⟨?_, Or.inl ?_⟩
        · rw [ha1, hb1]
        · omega

lemma sendKeys_openLayer (L : Nat) (t : List Event) :
    sendKeys (Event.openLayer L :: t) = sendKeys t := by
  simp [sendKeys, List.filterMap_cons, sendKey]

lemma visitLayers_sendKeys (cat : FileCatalog) (observers : List Observer) :
    ∀ (ls : List Layer) (cache : List Nat) (L : Nat),
      (∀ k ∈ sendKeys (visitLayers cat observers cache L ls).1, L ≤ k.1) ∧
      List.Pairwise keyLt
        (sendKeys (visitLayers cat observers cache L ls).1) := by
  intro ls
  induction ls with
  | nil =>
    intro cache L
    constructor
    · intro k hk
      simp [visitLayers, sendKeys] at hk
    · simp [visitLayers, sendKeys]
  | cons l ls ih =>
    intro cache L
    cases hcont : l.content with
    | error m =>
      simp only [visitLayers, hcont]
      constructor
      · intro k hk
        simp [sendKeys, sendKey, List.filterMap_cons] at hk
      · simp [sendKeys, sendKey, List.filterMap_cons]
    | ok entries =>
      have hve := visitEntries_sendKeys cat l.Metadata.Digest observers L
        entries cache 0
      rcases hv : visitEntries cat l.Metadata.Digest observers L cache 0 entries
        with ⟨evs, cache2, err⟩
      rw [hv] at hve
      cases err with
      | some m =>
        simp only [visitLayers, hcont, hv]
        rw [sendKeys_openLayer]
        exact ⟨fun k hk => le_of_eq (hve.1 k hk).1.symm, hve.2⟩
      | none =>
        simp only [visitLayers, hcont, hv]
        rw [sendKeys_openLayer]
        obtain ⟨ihB, ihP⟩ := ih cache2 (L + 1)
        constructor
        · intro k hk
          rw [sendKeys_append] at hk
          rcases List.mem_append.mp hk with h | h
          · exact le_of_eq (hve.1 k h).1.symm
          · have := ihB k h
            omega
        · rw [sendKeys_append]
          refine List.pairwise_append.mpr ⟨hve.2, ihP, ?_⟩
          intro a ha b hb
          have ha1 := (hve.1 a ha).1
          have hb1 := ihB b hb
          left
          omega


/-- Claim C5: delivery order — in any IterateContent run, the send events
occur in strictly increasing lexicographic (layer index, entry index, observer
registration index) order. Hence any single observer receives entries in layer
order and, within a layer, in archive-entry order, and for any one entry the
interested observers are served in registration order; since each send event
is a synchronous hand-off that the pipeline completes before its next action,
trace order is delivery order. -/
theorem iterate_delivery_order (i : Image) (observers : List Observer) :
    List.Pairwise keyLt (sendKeys ((i.IterateContent observers).1)) := by
  unfold Image.IterateContent
  split
  · simp [sendKeys]
  · have h := (visitLayers_sendKeys i.FileCatalog observers i.Layers
      i.FileCatalog.cache 0).2
    have hc : sendKeys ((List.range observers.length).map Event.closeChan)
        = [] := by
      rw [sendKeys, List.filterMap_eq_nil_iff]
      intro a ha
      obtain ⟨j, -, hj⟩ := List.mem_map.mp ha
      subst hj
      rfl
    have hall : List.Pairwise keyLt (sendKeys
        ((visitLayers i.FileCatalog observers i.FileCatalog.cache 0 i.Layers).1
          ++ (List.range observers.length).map Event.closeChan)) := by
      rw [sendKeys_append, hc, List.append_nil]
      exact h
    exact hall

/-- Counterexample for claim C2: in a concrete run with one archive entry and
two interested observers, prepareContent is invoked twice for the entry's
reference, not exactly once. -/
theorem iterate_prepare_per_entry_counterexample :
    prepareCountFor 1 ((cImg2.IterateContent cObs2).1) = 2 ∧
    ¬prepareCountFor 1 ((cImg2.IterateContent cObs2).1) = 1 := by
  constructor
  · rfl
  · decide

/-- Claim C2 (amended): during the distribution pass prepareContent is invoked
once per interested observer for each entry — the invocation count over an
entry's delivery loop equals the number of registered observers whose filter
accepts the entry's reference — while the raw archive bytes for any reference
are read at most once per IterateContent run, because the catalog's content
cache is populated by the first preparation and reused by the later ones. -/
theorem prepare_per_observer_raw_read_once :
    (∀ (L E ref : Nat) (os : List Observer) (cache : List Nat) (j : Nat),
      prepareCountFor ref (deliverToObservers L E ref os cache j).1 =
        (os.filter (fun o => o.IsInterestedIn ref)).length) ∧
    (∀ (i : Image) (observers : List Observer) (ref : Nat),
      rawReadCountFor ref ((i.IterateContent observers).1) ≤ 1) := by
  constructor
  · intro L E ref os cache j
    exact deliver_prepareCount L E ref os cache j
  · intro i observers ref
    unfold Image.IterateContent
    split
    · simp [rawReadCountFor]
    · have hinv := readOnce_visitLayers ref i.FileCatalog observers i.Layers
        i.FileCatalog.cache 0
      have hb := hinv.2.2.1
      have hfull : rawReadCountFor ref
          ((visitLayers i.FileCatalog observers i.FileCatalog.cache 0 i.Layers).1
            ++ (List.range observers.length).map Event.closeChan) ≤ 1 := by
        rw [rawReadCountFor_append, rawReadCountFor_closes]
        omega
      exact hfull

/-- Witness for claim C4: the concrete mutated-archive image aborts at its
second entry with the mismatch error, after delivering only the first entry
and closing the observer channel. -/
theorem iterate_mismatch_aborts_witness :
    wImgBad.IterateContent wObs1 =
      ([Event.openLayer 0, Event.prepareCall 0 0 1, Event.rawRead 1,
        Event.send 0 0 0 1, Event.closeChan 0],
       Except.error "mismatched tar header names : evil != f2") := by
  have h := iterate_mismatch_aborts wImgBad wObs1 [] [] wBadLayer
    [⟨"good"⟩] [] ⟨"evil"⟩ ⟨2, "f2"⟩ []
    [Event.prepareCall 0 0 1, Event.rawRead 1, Event.send 0 0 0 1] [] [1]
    (by decide) rfl rfl rfl rfl rfl (by decide)
  exact h

end Stereoscope
